import Mathlib

/-!
Shallow embedding of the statistics and tracing subsystem of
`tcmalloc/stats.cc` (size-class counters `PageAllocInfo`, the age
histogram engine `PageAgeHistograms`, and the binary event-trace
writer), together with theorems settling the specification claims.

Machine integers are modelled as `Nat` with explicit `% 2 ^ w` at the
points where the C code can wrap (uint32 histogram buckets, uint64
delta arithmetic and the 64-bit mask in `RoundUp`); the long-lived
accumulators (`total_small_`, `total_slack_`) are modelled as `Int`,
matching the spec's description of them as unbounded/signed
accumulators whose overflow is documented as unrealistic.  `double`
arithmetic on ages is modelled as `ℚ`.  Definitions taken from headers
that are not part of the excerpt (`stats.h`, `common.h`,
`internal/bits.h`) carry a doc comment starting `Modelled from the
spec:`.
-/

namespace TcmallocStats

/-- Modelled from the spec: `kPageShift` from `common.h` (not in the
excerpt).  The spec fixes `kMaxPages * pageSize = 1 MiB`; we use the
common configuration of 8 KiB pages. -/
def kPageShift : Nat := 13

/-- Modelled from the spec: `kPageSize = 2 ^ kPageShift` (8 KiB). -/
def kPageSize : Nat := 2 ^ kPageShift

/-- Modelled from the spec: `kMaxPages` from `common.h`; the
`static_assert` in `RecordAlloc` pins `kMaxPages * kPageSize == 1 MiB`,
so with 8 KiB pages `kMaxPages = 128`. -/
def kMaxPages : Nat := 128

/-- Modelled from the spec: `kPagesPerHugePage` from `common.h`
(2 MiB huge pages / 8 KiB pages); the `static_assert` in `RecordAlloc`
requires `kMaxPages < kPagesPerHugePage`. -/
def kPagesPerHugePage : Nat := 256

/-- Embeds `RoundUp` from `stats.cc`:
`(value + alignment - 1) & ~(alignment - 1)` over 64-bit `size_t`.
The 64-bit complement of `x` is `2 ^ 64 - 1 - x`. -/
def RoundUp (value alignment : Nat) : Nat :=
  ((value + alignment - 1) % 2 ^ 64) &&& (2 ^ 64 - 1 - ((alignment - 1) % 2 ^ 64))

/-- Follows the spec's words (for comparison with `RoundUp`): rounding
`value` up to the next multiple of `alignment`. -/
def roundUpSpec (value alignment : Nat) : Nat :=
  alignment * ((value + alignment - 1) / alignment)

/-- Modelled from the spec: the floor base-2 logarithm computed by the
64-bit leading-zero scan (`63 - clz`) underlying
`tcmalloc_internal::Bits` in `internal/bits.h` (not in the excerpt),
written as 64 halving steps so it is kernel-computable. -/
def log2Scan : Nat → Nat → Nat
  | 0, _ => 0
  | fuel + 1, n => if 2 ≤ n then log2Scan fuel (n / 2) + 1 else 0

/-- Modelled from the spec: `tcmalloc_internal::Bits::Log2Ceiling` from
`internal/bits.h` (not in the excerpt); the spec specifies `⌈log2(n)⌉`
computed by a leading-zero bit scan.  For `n ≥ 2` the ceiling is the
floor logarithm of `n - 1` plus one; the lemma `Log2Ceiling_eq_clog`
below identifies this with Mathlib's ceiling logarithm `Nat.clog 2` on
the 64-bit domain. -/
def Log2Ceiling (n : Nat) : Nat :=
  if n ≤ 1 then 0 else log2Scan 64 (n - 1) + 1

/-- The size-class resolution shared by `RecordAlloc`, `RecordFree` and
`counts_for`: slot `n - 1` of the small array for `n ≤ kMaxPages`, else
slot `Log2Ceiling n` of the large array. -/
def sizeClassIndex (n : Nat) : Nat :=
  if n ≤ kMaxPages then n - 1 else Log2Ceiling n

/-- Modelled from the spec: the per-size-class counter record `Counts`
declared in `stats.h` (not in the excerpt): event tallies `nalloc`,
`nfree` and page-volume tallies `alloc_size`, `free_size`. -/
structure Counts where
  nalloc : Nat
  nfree : Nat
  alloc_size : Nat
  free_size : Nat
  deriving DecidableEq

/-- Modelled from the spec: `Counts::Alloc(n)` from `stats.h` bumps the
allocation tallies. -/
def Counts.Alloc (c : Counts) (n : Nat) : Counts :=
  { c with nalloc := c.nalloc + 1, alloc_size := c.alloc_size + n }

/-- Modelled from the spec: `Counts::Free(n)` from `stats.h` bumps the
free tallies. -/
def Counts.Free (c : Counts) (n : Nat) : Counts :=
  { c with nfree := c.nfree + 1, free_size := c.free_size + n }

/-- The all-zero counter record. -/
def Counts.zero : Counts := ⟨0, 0, 0, 0⟩

/-- Embeds the 16-byte trace record `Entry` from `stats.cc`: 8-byte
`id`, 4-byte `kib`, 4-byte `whenwhat = delta_ms << 8 | what`. -/
structure Entry where
  id : Nat
  kib : Nat
  whenwhat : Nat
  deriving DecidableEq

/-- `kMaxRep` from `PageAllocInfo::Write`: the largest byte count whose
KiB value fits the 32-bit `kib` field. -/
def kMaxRep : Nat := (2 ^ 32 - 1) * 1024

/-- State of `PageAllocInfo` from `stats.cc`/`stats.h`: the small and
large per-class counter arrays (as total maps; only indices
`0..kMaxPages-1` resp. the `Log2Ceiling` range are used), the global
accumulators, the tracing flag (`fd_ >= 0` in the source), the trace
writer's last-emitted-millisecond cursor, and the list of emitted
16-byte records (the 8-byte version header written by the constructor
is not part of this list). -/
structure PageAllocInfo where
  small : Nat → Counts
  large : Nat → Counts
  total_small : Int
  total_slack : Int
  largest_seen : Nat
  log_on : Bool
  last_ms : Nat
  trace : List Entry

/-- Modelled from the spec: a freshly constructed `PageAllocInfo`
(`stats.h` zero-initializes the counters and the cursor). -/
def PageAllocInfo.init (log_on : Bool) : PageAllocInfo :=
  ⟨fun _ => Counts.zero, fun _ => Counts.zero, 0, 0, 0, log_on, 0, []⟩

/-- Embeds `PageAllocInfo::Write` from `stats.cc`: round `when` (ns) to
ms, take the uint64 difference to the cursor, clamp it to `2^24 - 1`,
advance the cursor to the unclamped ms value, saturate the byte count
at `kMaxRep`, and append the packed entry. -/
def PageAllocInfo.Write (s : PageAllocInfo) (w what p n : Nat) : PageAllocInfo :=
  let ms := w / 1000 / 1000
  let delta0 := (2 ^ 64 + ms - s.last_ms) % 2 ^ 64
  let delta_ms := if 2 ^ 24 ≤ delta0 then 2 ^ 24 - 1 else delta0
  let bytes0 := (n <<< kPageShift) % 2 ^ 64
  let bytes := if kMaxRep < bytes0 then kMaxRep else bytes0
  let e : Entry := ⟨p % 2 ^ 64, bytes / 1024, ((delta_ms <<< 8) ||| (what % 2 ^ 8)) % 2 ^ 32⟩
  { s with last_ms := ms, trace := s.trace ++ [e] }

/-- Modelled from the spec: `LogAlloc(t, p, n)` from `stats.h` writes an
alloc record (event code 0). -/
def PageAllocInfo.LogAlloc (s : PageAllocInfo) (t p n : Nat) : PageAllocInfo :=
  s.Write t 0 p n

/-- Modelled from the spec: `LogFree(t, p, n)` from `stats.h` writes a
free record (event code 1). -/
def PageAllocInfo.LogFree (s : PageAllocInfo) (t p n : Nat) : PageAllocInfo :=
  s.Write t 1 p n

/-- Modelled from the spec: `LogRelease(t, n)` from `stats.h` writes a
release record (event code 2). -/
def PageAllocInfo.LogRelease (s : PageAllocInfo) (t n : Nat) : PageAllocInfo :=
  s.Write t 2 0 n

/-- Embeds `PageAllocInfo::RecordAlloc` from `stats.cc`; `t` is the
`TimeNanos()` value read when tracing is on. -/
def PageAllocInfo.RecordAlloc (s : PageAllocInfo) (t p n : Nat) : PageAllocInfo :=
  let s1 := if s.log_on then s.LogAlloc t p n else s
  let s2 := { s1 with largest_seen := max s1.largest_seen n }
  if n ≤ kMaxPages then
    { s2 with total_small := s2.total_small + n,
              small := Function.update s2.small (n - 1) ((s2.small (n - 1)).Alloc n) }
  else
    let slack := RoundUp n kPagesPerHugePage - n
    { s2 with total_slack := s2.total_slack + slack,
              large := Function.update s2.large (Log2Ceiling n) ((s2.large (Log2Ceiling n)).Alloc n) }

/-- Embeds `PageAllocInfo::RecordFree` from `stats.cc`. -/
def PageAllocInfo.RecordFree (s : PageAllocInfo) (t p n : Nat) : PageAllocInfo :=
  let s1 := if s.log_on then s.LogFree t p n else s
  if n ≤ kMaxPages then
    { s1 with total_small := s1.total_small - n,
              small := Function.update s1.small (n - 1) ((s1.small (n - 1)).Free n) }
  else
    let slack := RoundUp n kPagesPerHugePage - n
    { s1 with total_slack := s1.total_slack - slack,
              large := Function.update s1.large (Log2Ceiling n) ((s1.large (Log2Ceiling n)).Free n) }

/-- Embeds `PageAllocInfo::RecordRelease` from `stats.cc`: only logs a
release record when tracing is on (the `got` argument is unused by the
source body). -/
def PageAllocInfo.RecordRelease (s : PageAllocInfo) (t n got : Nat) : PageAllocInfo :=
  if s.log_on then s.LogRelease t n else s

/-- Embeds `PageAllocInfo::counts_for` from `stats.cc`. -/
def PageAllocInfo.counts_for (s : PageAllocInfo) (n : Nat) : Counts :=
  if n ≤ kMaxPages then s.small (n - 1) else s.large (Log2Ceiling n)

/-- One recorded operation, with the `TimeNanos()` reading it would use
for tracing supplied explicitly. -/
inductive Op where
  | alloc (t p n : Nat)
  | free (t p n : Nat)
  | release (t n got : Nat)

/-- Applies one operation to the counter state. -/
def PageAllocInfo.step (s : PageAllocInfo) (op : Op) : PageAllocInfo :=
  match op with
  | .alloc t p n => s.RecordAlloc t p n
  | .free t p n => s.RecordFree t p n
  | .release t n got => s.RecordRelease t n got

/-- Applies a sequence of operations. -/
def PageAllocInfo.run (s : PageAllocInfo) (ops : List Op) : PageAllocInfo :=
  ops.foldl PageAllocInfo.step s

/-- Applies one raw `Write` call described by `(when, what, id, pages)`. -/
def PageAllocInfo.writeStep (s : PageAllocInfo) (ev : Nat × Nat × Nat × Nat) : PageAllocInfo :=
  s.Write ev.1 ev.2.1 ev.2.2.1 ev.2.2.2

/-- The `min_sec` column of `kSpanAgeHistBuckets` from `stats.cc`:
thresholds 0s, 1s, 30s, 1m, 30m, 1h, 8h. -/
def kSpanAgeHistBuckets : List Nat := [0, 1, 30, 1 * 60, 30 * 60, 1 * 60 * 60, 8 * 60 * 60]

/-- Threshold of bucket `i` (out-of-range reads 0, never used). -/
def bucketMin (i : Nat) : Nat := kSpanAgeHistBuckets.getD i 0

/-- Embeds `HistBucketIndex` from `stats.cc`: truncate the age to whole
seconds (the C cast of a non-negative `double` to `uint64_t` truncates
toward zero, i.e. takes the floor), then scan
`for i < 6: if age_secs < kSpanAgeHistBuckets[i+1].min_sec return i;
return 6`; the bounded loop is unrolled over the fixed table. -/
def HistBucketIndex (age_exact : ℚ) : Nat :=
  let age_secs : Nat := (⌊age_exact⌋).toNat
  if age_secs < 1 then 0
  else if age_secs < 30 then 1
  else if age_secs < 60 then 2
  else if age_secs < 1800 then 3
  else if age_secs < 3600 then 4
  else if age_secs < 28800 then 5
  else 6

/-- Embeds `SaturatingAdd` from `stats.cc` over uint32:
`z = x + y; if (z < x) z = UINT32_MAX;`. -/
def SaturatingAdd (x y : Nat) : Nat :=
  let z := (x + y) % 2 ^ 32
  if z < x then 2 ^ 32 - 1 else z

/-- State of `PageAgeHistograms::Histogram` (`stats.h`): seven uint32
buckets (as a total map; only indices 0..6 are used), the page total
and the age-weighted page total. -/
structure Histogram where
  buckets : Nat → Nat
  total_pages : Nat
  total_age : ℚ

/-- The all-zero histogram. -/
def Histogram.zero : Histogram := ⟨fun _ => 0, 0, 0⟩

/-- Embeds `PageAgeHistograms::Histogram::Record` from `stats.cc`: a
saturating add of `pages` (implicitly converted from `size_t` to
`uint32_t` at the call, hence `% 2 ^ 32`) into the selected bucket,
plus the exact accumulator updates. -/
def Histogram.Record (h : Histogram) (pages : Nat) (age : ℚ) : Histogram :=
  let bucket := HistBucketIndex age
  { buckets := Function.update h.buckets bucket (SaturatingAdd (h.buckets bucket) (pages % 2 ^ 32)),
    total_pages := h.total_pages + pages,
    total_age := h.total_age + pages * age }

/-- Modelled from the spec: the per-size threshold `kNumSizes`
(= `kLargeSize`) from `stats.h` (not in the excerpt); sizes below it get
their own histogram, sizes at or above it share the aggregate large
histogram. -/
def kNumSizes : Nat := 64

/-- Modelled from the spec: `kLargeSize = kNumSizes` from `stats.h`. -/
def kLargeSize : Nat := kNumSizes

/-- State of `PageAgeHistograms::PerSizeHistograms` (`stats.h`): one
histogram per small size (as a total map indexed by the page count, per
the spec's "size-specific Histogram at index pages"), the aggregate
large histogram, and the grand total. -/
structure PerSizeHistograms where
  small : Nat → Histogram
  large : Histogram
  total : Histogram

/-- The all-zero per-size histogram set. -/
def PerSizeHistograms.zero : PerSizeHistograms :=
  ⟨fun _ => Histogram.zero, Histogram.zero, Histogram.zero⟩

/-- Modelled from the spec: `GetSmall(pages)` resolves the
size-specific histogram (`stats.h`, not in the excerpt). -/
def PerSizeHistograms.GetSmall (h : PerSizeHistograms) (pages : Nat) : Histogram :=
  h.small pages

/-- Embeds `PageAgeHistograms::PerSizeHistograms::Record` from
`stats.cc`: `(pages < kLargeSize ? GetSmall(pages) : GetLarge())
->Record(pages, age); total.Record(pages, age);`. -/
def PerSizeHistograms.Record (h : PerSizeHistograms) (pages : Nat) (age : ℚ) : PerSizeHistograms :=
  let h1 :=
    if pages < kLargeSize then
      { h with small := Function.update h.small pages ((h.GetSmall pages).Record pages age) }
    else
      { h with large := h.large.Record pages age }
  { h1 with total := h1.total.Record pages age }

/-- State of `PageAgeHistograms`: the snapshot timestamp `now_`, the
clock frequency `freq_` (a positive `double`, modelled as `ℚ`), and the
live/returned histogram sets. -/
structure PageAgeHistograms where
  now : Int
  freq : ℚ
  live : PerSizeHistograms
  returned : PerSizeHistograms

/-- Embeds `PageAgeHistograms::RecordRange` from `stats.cc`:
`age = max(0.0, (now_ - when) / freq_);
(released ? returned_ : live_).Record(pages, age);`. -/
def PageAgeHistograms.RecordRange (s : PageAgeHistograms) (pages : Nat) (released : Bool)
    (w : Int) : PageAgeHistograms :=
  let age : ℚ := max 0 (((s.now - w : Int) : ℚ) / s.freq)
  if released then
    { s with returned := s.returned.Record pages age }
  else
    { s with live := s.live.Record pages age }

/-- Live small pages implied by the per-class counters: the sum over
the small size classes of `allocated_pages - freed_pages`. -/
def smallLive (s : PageAllocInfo) : Int :=
  (Finset.range kMaxPages).sum
    (fun i => ((s.small i).alloc_size : Int) - ((s.small i).free_size : Int))

/-- The halving scan brackets its argument between consecutive powers
of two whenever the fuel covers the argument's width. -/
theorem log2Scan_bounds :
    ∀ (fuel n : Nat), 1 ≤ n → n < 2 ^ fuel →
      2 ^ log2Scan fuel n ≤ n ∧ n < 2 ^ (log2Scan fuel n + 1) := by
  intro fuel
  induction fuel with
  | zero => intro n h1 h2; omega
  | succ fuel ih =>
    intro n h1 h2
    rw [log2Scan]
    by_cases h : 2 ≤ n
    · have hpow : 2 ^ (fuel + 1) = 2 * 2 ^ fuel := by ring
      have hdiv : n / 2 < 2 ^ fuel := by omega
      have hone : 1 ≤ n / 2 := by omega
      obtain ⟨hl, hr⟩ := ih (n / 2) hone hdiv
      have hp1 : 2 ^ (log2Scan fuel (n / 2) + 1) = 2 * 2 ^ log2Scan fuel (n / 2) := by ring
      have hp2 : 2 ^ (log2Scan fuel (n / 2) + 1 + 1) = 2 * 2 ^ (log2Scan fuel (n / 2) + 1) := by
        ring
      simp only [if_pos h]
      omega
    · simp only [if_neg h]
      omega

/-- `Log2Ceiling` agrees with the ceiling logarithm `Nat.clog 2` on the
64-bit domain. -/
theorem Log2Ceiling_eq_clog (n : Nat) (hn : n ≤ 2 ^ 64) : Log2Ceiling n = Nat.clog 2 n := by
  unfold Log2Ceiling
  by_cases h1 : n ≤ 1
  · rw [if_pos h1, Nat.clog_of_right_le_one h1]
  · rw [if_neg h1]
    have hb : (1 : Nat) < 2 := by norm_num
    obtain ⟨hl, hr⟩ := log2Scan_bounds 64 (n - 1) (by omega) (by omega)
    refine le_antisymm ?_ ?_
    · by_contra hcon
      have hle : Nat.clog 2 n ≤ log2Scan 64 (n - 1) := by omega
      have := (Nat.le_pow_iff_clog_le hb).mpr hle
      omega
    · exact (Nat.le_pow_iff_clog_le hb).mp (by omega)

/-- Conjunction with the 64-bit high mask clears the low 8 bits. -/
theorem land_highmask (x : Nat) (hx : x < 2 ^ 64) :
    x &&& (2 ^ 64 - 2 ^ 8) = 2 ^ 8 * (x / 2 ^ 8) := by
  apply Nat.eq_of_testBit_eq
  intro i
  have hmask : (2 ^ 64 - 2 ^ 8 : Nat) = (2 ^ 56 - 1) <<< 8 := by
    rw [Nat.shiftLeft_eq]; norm_num
  have hrhs : 2 ^ 8 * (x / 2 ^ 8) = (x >>> 8) <<< 8 := by
    rw [Nat.shiftLeft_eq, Nat.shiftRight_eq_div_pow]; ring
  rw [hmask, hrhs, Nat.testBit_land, Nat.testBit_shiftLeft, Nat.testBit_shiftLeft,
    Nat.testBit_shiftRight, Nat.testBit_two_pow_sub_one]
  by_cases h8 : 8 ≤ i
  · by_cases h64 : i < 64
    · have h1 : 8 + (i - 8) = i := by omega
      have h2 : i - 8 < 56 := by omega
      simp [h8, h1, h2]
    · have hxb : x.testBit i = false :=
        Nat.testBit_eq_false_of_lt
          (lt_of_lt_of_le hx (Nat.pow_le_pow_right (by norm_num) (by omega)))
      have hxb2 : x.testBit (8 + (i - 8)) = false := by
        rw [(by omega : 8 + (i - 8) = i)]; exact hxb
      simp [hxb, hxb2, (by omega : ¬ i - 8 < 56)]
  · simp [h8]

/-- The masked `RoundUp` of the source equals arithmetic rounding up to
the next multiple of `kPagesPerHugePage`, on inputs that do not
overflow the 64-bit add. -/
theorem RoundUp_eq_roundUpSpec (v : Nat) (hv : v + 255 < 2 ^ 64) :
    RoundUp v kPagesPerHugePage = roundUpSpec v kPagesPerHugePage := by
  unfold RoundUp roundUpSpec kPagesPerHugePage
  have h1 : (v + 256 - 1) % 2 ^ 64 = v + 255 := Nat.mod_eq_of_lt (by omega)
  have h2 : (2 ^ 64 - 1 - ((256 - 1 : Nat) % 2 ^ 64) : Nat) = 2 ^ 64 - 2 ^ 8 := by norm_num
  rw [h1, h2, land_highmask _ (by omega)]
  norm_num

/-- Rounding up never goes below the input. -/
theorem roundUpSpec_ge_self (v : Nat) : v ≤ roundUpSpec v kPagesPerHugePage := by
  unfold roundUpSpec kPagesPerHugePage
  omega

/-- The low byte of a packed `whenwhat` word recovers the event code. -/
theorem whenwhat_low (d w : Nat) (hw : w < 2 ^ 8) :
    ((d <<< 8 ||| w) % 2 ^ 32) % 2 ^ 8 = w := by
  have hdvd : ((d <<< 8 ||| w) % 2 ^ 32) % 2 ^ 8 = (d <<< 8 ||| w) % 2 ^ 8 :=
    Nat.mod_mod_of_dvd _ (by norm_num)
  rw [hdvd]
  have : (d <<< 8 ||| w) % 2 ^ 8 = w % 2 ^ 8 := by
    apply Nat.eq_of_testBit_eq
    intro i
    rw [Nat.testBit_mod_two_pow, Nat.testBit_mod_two_pow, Nat.testBit_lor, Nat.testBit_shiftLeft]
    by_cases h8 : i < 8
    · simp [h8, (by omega : ¬ i ≥ 8)]
    · simp [h8]
  rw [this, Nat.mod_eq_of_lt hw]

/-- The high 24 bits of a packed `whenwhat` word recover the delta. -/
theorem whenwhat_high (d v : Nat) (hd : d < 2 ^ 24) (hv : v < 2 ^ 8) :
    ((d <<< 8 ||| v) % 2 ^ 32) >>> 8 = d := by
  apply Nat.eq_of_testBit_eq
  intro i
  rw [Nat.testBit_shiftRight, Nat.testBit_mod_two_pow, Nat.testBit_lor, Nat.testBit_shiftLeft]
  have hvb : v.testBit (8 + i) = false :=
    Nat.testBit_eq_false_of_lt
      (lt_of_lt_of_le hv (Nat.pow_le_pow_right (by norm_num) (by omega)))
  by_cases h32 : 8 + i < 32
  · have h8 : 8 + i ≥ 8 := by omega
    have heq : 8 + i - 8 = i := by omega
    simp [h32, h8, heq, hvb]
  · have hdb : d.testBit i = false :=
      Nat.testBit_eq_false_of_lt
        (lt_of_lt_of_le hd (Nat.pow_le_pow_right (by norm_num) (by omega)))
    simp [h32, hdb, hvb]

/-- C1 counterexample: size-class resolution, read as one numeric
mapping the way the claim states it, is not monotonic non-decreasing:
at `n = kMaxPages` it yields `kMaxPages - 1 = 127`, while at
`n = kMaxPages + 1` it yields `⌈log2 129⌉ = 8`, a strictly smaller
class. -/
theorem sizeClass_monotonic_counterexample :
    sizeClassIndex kMaxPages = kMaxPages - 1 ∧
    sizeClassIndex (kMaxPages + 1) = 8 ∧
    sizeClassIndex (kMaxPages + 1) < sizeClassIndex kMaxPages := by decide

/-- C1 (amended): size-class resolution (shared by `RecordAlloc`,
`RecordFree` and `counts_for`) is a pure total function of `n` that
yields `n - 1` for `1 ≤ n ≤ kMaxPages` and `⌈log2 n⌉` (the least `k`
with `n ≤ 2 ^ k`, i.e. `Nat.clog 2 n`) for `n > kMaxPages`, and it is
monotonic non-decreasing within each regime; it is not monotonic
across the regime boundary (see the counterexample). -/
theorem sizeClass_resolution :
    (∀ n, 1 ≤ n → n ≤ kMaxPages → sizeClassIndex n = n - 1) ∧
    (∀ n, kMaxPages < n → n ≤ 2 ^ 64 →
      sizeClassIndex n = Nat.clog 2 n ∧ n ≤ 2 ^ sizeClassIndex n ∧
      (∀ k, n ≤ 2 ^ k → sizeClassIndex n ≤ k)) ∧
    (∀ m n, m ≤ n → n ≤ kMaxPages → sizeClassIndex m ≤ sizeClassIndex n) ∧
    (∀ m n, kMaxPages < m → m ≤ n → n ≤ 2 ^ 64 → sizeClassIndex m ≤ sizeClassIndex n) ∧
    (∀ s n, PageAllocInfo.counts_for s n =
      if n ≤ kMaxPages then s.small (sizeClassIndex n) else s.large (sizeClassIndex n)) := by
  refine ⟨?_, ?_, ?_, ?_, ?_⟩
  · intro n h1 h2
    unfold sizeClassIndex
    rw [if_pos h2]
  · intro n h hn64
    have hns : ¬ n ≤ kMaxPages := by omega
    unfold sizeClassIndex
    rw [if_neg hns]
    have hc := Log2Ceiling_eq_clog n hn64
    refine ⟨hc, ?_, ?_⟩
    · rw [hc]; exact Nat.le_pow_clog (by norm_num) n
    · intro k hk; rw [hc]; exact (Nat.le_pow_iff_clog_le (by norm_num)).mp hk
  · intro m n hmn hn
    have hm : m ≤ kMaxPages := le_trans hmn hn
    unfold sizeClassIndex
    rw [if_pos hm, if_pos hn]
    omega
  · intro m n h1 h2 h3
    have hm : ¬ m ≤ kMaxPages := by omega
    have hn : ¬ n ≤ kMaxPages := by omega
    unfold sizeClassIndex
    rw [if_neg hm, if_neg hn, Log2Ceiling_eq_clog m (by omega), Log2Ceiling_eq_clog n h3]
    exact Nat.clog_mono_right 2 h2
  · intro s n
    unfold PageAllocInfo.counts_for sizeClassIndex
    by_cases h : n ≤ kMaxPages <;> simp [h]

/-- C1 witness: the amended resolution theorem evaluated at the small
input 5 and the large input 200 (whose ceiling log is 8). -/
theorem sizeClass_resolution_witness :
    sizeClassIndex 5 = 5 - 1 ∧ sizeClassIndex 200 ≤ 8 :=
  ⟨sizeClass_resolution.1 5 (by decide) (by decide),
   (sizeClass_resolution.2.1 200 (by decide) (by decide)).2.2 8 (by decide)⟩

/-- C2: the trace writer rounds each nanosecond timestamp down to whole
milliseconds before differencing against the cursor: the event sequence
at 0 ms, 700 µs and 50 ms emits `delta_ms` values 0, 0, 50 (the 700 µs
event rounds to millisecond 0, and the 50 ms event's delta is 50, not
49). -/
theorem trace_rounds_before_delta :
    ((((PageAllocInfo.init true).Write 0 0 7 3).Write 700000 0 7 3).Write
        50000000 0 7 3).trace.map (fun e => e.whenwhat >>> 8) = [0, 0, 50] := by decide

/-- C3: `Histogram::Record` adds page counts into buckets with
saturation: every bucket value below the uint32 limit stays below it,
never decreases, and a bucket already at the maximum stays at the
maximum — no wraparound to a smaller value. -/
theorem histogram_record_saturates (h : Histogram) (pages : Nat) (age : ℚ) (i : Nat)
    (hb : h.buckets i < 2 ^ 32) :
    h.buckets i ≤ (h.Record pages age).buckets i ∧
    (h.Record pages age).buckets i < 2 ^ 32 ∧
    (h.buckets i = 2 ^ 32 - 1 → (h.Record pages age).buckets i = 2 ^ 32 - 1) := by
  have hy : pages % 2 ^ 32 < 2 ^ 32 := Nat.mod_lt _ (by norm_num)
  unfold Histogram.Record SaturatingAdd
  dsimp only
  simp only [Function.update_apply]
  by_cases hI : i = HistBucketIndex age
  · rw [if_pos hI]
    rw [hI] at hb ⊢
    split_ifs <;> omega
  · rw [if_neg hI]
    exact ⟨le_refl _, hb, fun hx => hx⟩

/-- C3 witness: recording 5 pages into a histogram whose bucket is
already at the uint32 maximum leaves it at the maximum. -/
theorem histogram_record_saturates_witness :
    (Histogram.Record ⟨fun _ => 2 ^ 32 - 1, 0, 0⟩ 5 0).buckets 0 = 2 ^ 32 - 1 :=
  (histogram_record_saturates ⟨fun _ => 2 ^ 32 - 1, 0, 0⟩ 5 0 0 (by decide)).2.2 rfl

/-- C4: when the millisecond gap since the cursor is at least `2^24`,
the emitted record stores a delta of exactly `2^24 - 1`, while the
cursor advances to the event's true (unclamped) millisecond value. -/
theorem delta_clamped_cursor_true (s : PageAllocInfo) (w what p n : Nat)
    (h1 : s.last_ms ≤ w / 1000 / 1000)
    (h2 : 2 ^ 24 ≤ w / 1000 / 1000 - s.last_ms)
    (h3 : w / 1000 / 1000 - s.last_ms < 2 ^ 64) :
    ((s.Write w what p n).trace.getLast?).map (fun e => e.whenwhat >>> 8) =
      some (2 ^ 24 - 1) ∧
    (s.Write w what p n).last_ms = w / 1000 / 1000 := by
  unfold PageAllocInfo.Write
  dsimp only
  constructor
  · rw [List.getLast?_concat]
    have hms : (2 ^ 64 + w / 1000 / 1000 - s.last_ms) % 2 ^ 64 =
        w / 1000 / 1000 - s.last_ms := by omega
    rw [hms, if_pos h2]
    simp only [Option.map_some']
    exact congrArg some (whenwhat_high (2 ^ 24 - 1) (what % 2 ^ 8) (by norm_num) (by omega))
  · rfl

/-- C4 witness: from a fresh writer, an event at 2^24 ms (in ns) is
clamped to delta `2^24 - 1` while the cursor advances to 2^24. -/
theorem delta_clamped_cursor_true_witness :
    (((PageAllocInfo.init true).Write 16777216000000 1 0 1).trace.getLast?).map
      (fun e => e.whenwhat >>> 8) = some (2 ^ 24 - 1) ∧
    ((PageAllocInfo.init true).Write 16777216000000 1 0 1).last_ms =
      16777216000000 / 1000 / 1000 :=
  delta_clamped_cursor_true (PageAllocInfo.init true) 16777216000000 1 0 1 (by decide)
    (by decide) (by decide)

/-- C5: histogram bucket selection is total and boundary-inclusive: for
every non-negative age, the age is truncated to whole seconds and the
selected bucket is within the 7-entry table, its threshold is at most
the truncated age, and it is the last such bucket (so an age exactly at
a threshold falls into that threshold's bucket, and ages at or beyond
the last threshold fall into the open-ended last bucket). -/
theorem hist_bucket_selection (age : ℚ) (hage : 0 ≤ age) :
    HistBucketIndex age < 7 ∧
    bucketMin (HistBucketIndex age) ≤ (⌊age⌋).toNat ∧
    (∀ j, j < 7 → bucketMin j ≤ (⌊age⌋).toNat → j ≤ HistBucketIndex age) := by
  have hb0 : bucketMin 0 = 0 := by decide
  have hb1 : bucketMin 1 = 1 := by decide
  have hb2 : bucketMin 2 = 30 := by decide
  have hb3 : bucketMin 3 = 60 := by decide
  have hb4 : bucketMin 4 = 1800 := by decide
  have hb5 : bucketMin 5 = 3600 := by decide
  have hb6 : bucketMin 6 = 28800 := by decide
  unfold HistBucketIndex
  dsimp only
  set secs := (⌊age⌋).toNat with hsecs
  split_ifs with a1 a2 a3 a4 a5 a6 <;>
    refine ⟨by norm_num, by simp only [hb0, hb1, hb2, hb3, hb4, hb5, hb6]; omega, ?_⟩ <;>
    · intro j hj hbj
      interval_cases j <;> simp only [hb0, hb1, hb2, hb3, hb4, hb5, hb6] at hbj ⊢ <;> omega

/-- C5 witness: the boundary age of exactly 30 seconds selects the
bucket whose threshold is 30 (index 2), not the previous one. -/
theorem hist_bucket_selection_witness :
    (0 : ℚ) ≤ 30 ∧ HistBucketIndex 30 = 2 ∧
    bucketMin (HistBucketIndex 30) ≤ (⌊(30 : ℚ)⌋).toNat :=
  ⟨by norm_num, by norm_num [HistBucketIndex],
   (hist_bucket_selection 30 (by norm_num)).2.1⟩

/-- C6: `RecordRange(pages, released, when)` records
`age = max(0, (now - when) / freq)` into the released set when
`released` is true and the live set otherwise (a `when` later than the
snapshot records age 0), and within the chosen set it updates both the
size-specific histogram (index `pages` below the threshold, else the
aggregate large histogram) and the grand total. -/
theorem record_range_updates (s : PageAgeHistograms) (pages : Nat) (released : Bool) (w : Int)
    (hf : 0 < s.freq) :
    s.RecordRange pages released w =
      (if released then
        { s with returned :=
            s.returned.Record pages (max 0 (((s.now - w : Int) : ℚ) / s.freq)) }
       else
        { s with live :=
            s.live.Record pages (max 0 (((s.now - w : Int) : ℚ) / s.freq)) }) ∧
    (s.now ≤ w →
      s.RecordRange pages released w =
        (if released then { s with returned := s.returned.Record pages 0 }
         else { s with live := s.live.Record pages 0 })) ∧
    (∀ (h : PerSizeHistograms) (age : ℚ),
      (h.Record pages age).total = h.total.Record pages age ∧
      (pages < kLargeSize →
        (h.Record pages age).small pages = (h.small pages).Record pages age ∧
        (h.Record pages age).large = h.large ∧
        (∀ q, q ≠ pages → (h.Record pages age).small q = h.small q)) ∧
      (kLargeSize ≤ pages →
        (h.Record pages age).large = h.large.Record pages age ∧
        (h.Record pages age).small = h.small)) := by
  refine ⟨?_, ?_, ?_⟩
  · unfold PageAgeHistograms.RecordRange
    rfl
  · intro hw
    have hnum : ((s.now - w : Int) : ℚ) ≤ 0 := by
      rw [Int.cast_nonpos]
      omega
    have hdiv : ((s.now - w : Int) : ℚ) / s.freq ≤ 0 :=
      div_nonpos_of_nonpos_of_nonneg hnum hf.le
    have hage0 : max 0 (((s.now - w : Int) : ℚ) / s.freq) = 0 := max_eq_left hdiv
    unfold PageAgeHistograms.RecordRange
    rw [hage0]
  · intro h age
    unfold PerSizeHistograms.Record PerSizeHistograms.GetSmall
    by_cases hp : pages < kLargeSize
    · rw [if_pos hp]
      refine ⟨rfl, fun _ => ⟨?_, rfl, ?_⟩, fun hq => absurd hp (by omega)⟩
      · exact Function.update_same pages _ h.small
      · intro q hq
        exact Function.update_noteq hq _ h.small
    · rw [if_neg hp]
      exact ⟨rfl, fun hq => absurd hq hp, fun _ => ⟨rfl, rfl⟩⟩

/-- C6 witness: a snapshot at `now = 10` with unit frequency, recording
2 pages with `when = 20` later than the snapshot, lands in the live set
with age 0. -/
theorem record_range_updates_witness :
    PageAgeHistograms.RecordRange ⟨10, 1, PerSizeHistograms.zero, PerSizeHistograms.zero⟩
        2 false 20 =
      (if false then
        { (⟨10, 1, PerSizeHistograms.zero, PerSizeHistograms.zero⟩ : PageAgeHistograms) with
            returned := PerSizeHistograms.zero.Record 2 0 }
       else
        { (⟨10, 1, PerSizeHistograms.zero, PerSizeHistograms.zero⟩ : PageAgeHistograms) with
            live := PerSizeHistograms.zero.Record 2 0 }) :=
  (record_range_updates ⟨10, 1, PerSizeHistograms.zero, PerSizeHistograms.zero⟩ 2 false 20
    (by norm_num)).2.1 (by norm_num)

/-- The `Write` path always sets the cursor to the event's millisecond
value. -/
theorem Write_last_ms (s : PageAllocInfo) (a b c d : Nat) :
    (s.Write a b c d).last_ms = a / 1000 / 1000 := rfl

/-- Auxiliary induction for C7: from any state whose cursor is at most
the first event's millisecond value, a chronologically ordered event
list keeps the cursor non-decreasing at every step. -/
theorem chain_le_scanl :
    ∀ (evs : List (Nat × Nat × Nat × Nat)) (s : PageAllocInfo),
      List.Chain' (fun x y => x.1 ≤ y.1) evs →
      (∀ e ∈ evs.head?, s.last_ms ≤ e.1 / 1000 / 1000) →
      List.Chain' (fun a c => a ≤ c)
        ((evs.scanl PageAllocInfo.writeStep s).map PageAllocInfo.last_ms) := by
  intro evs
  induction evs with
  | nil => intro s _ _; simp [List.scanl]
  | cons e es ih =>
    intro s hc hh
    rw [List.scanl_cons, List.cons_append, List.nil_append, List.map_cons]
    refine List.chain'_cons'.mpr ⟨?_, ?_⟩
    · intro y hy
      rw [List.head?_map] at hy
      have hhead : (List.scanl PageAllocInfo.writeStep (s.writeStep e) es).head? =
          some (s.writeStep e) := by
        cases es <;> simp [List.scanl]
      rw [hhead] at hy
      simp only [Option.map_some', Option.mem_def, Option.some.injEq] at hy
      subst hy
      have := hh e (by simp)
      simpa [PageAllocInfo.writeStep, Write_last_ms] using this
    · refine ih (s.writeStep e) hc.tail ?_
      intro e2 he2
      have h12 : e.1 ≤ e2.1 := by
        rcases es with _ | ⟨e2', es2⟩
        · simp at he2
        · simp only [List.head?_cons, Option.mem_def, Option.some.injEq] at he2
          subst he2
          exact (List.chain'_cons.mp hc).1
      have : e.1 / 1000 / 1000 ≤ e2.1 / 1000 / 1000 :=
        Nat.div_le_div_right (Nat.div_le_div_right h12)
      simpa [PageAllocInfo.writeStep, Write_last_ms] using this

/-- C7: over any chronologically ordered sequence of `Write` calls (the
source always passes the monotonic `TimeNanos()` reading), the writer's
last-emitted-millisecond cursor is monotonic non-decreasing: after each
call it is at least its value before the call. -/
theorem cursor_monotone (b : Bool) (evs : List (Nat × Nat × Nat × Nat))
    (h : List.Chain' (fun x y => x.1 ≤ y.1) evs) :
    List.Chain' (fun a c => a ≤ c)
      ((evs.scanl PageAllocInfo.writeStep (PageAllocInfo.init b)).map
        PageAllocInfo.last_ms) :=
  chain_le_scanl evs (PageAllocInfo.init b) h (fun _ _ => Nat.zero_le _)

/-- C7 witness: two events at 0 ns and 5 ms produce a non-decreasing
cursor history. -/
theorem cursor_monotone_witness :
    List.Chain' (fun a c => a ≤ c)
      (([(0, 0, 0, 1), (5000000, 1, 0, 1)].scanl PageAllocInfo.writeStep
        (PageAllocInfo.init true)).map PageAllocInfo.last_ms) :=
  cursor_monotone true [(0, 0, 0, 1), (5000000, 1, 0, 1)]
    (List.chain'_cons.mpr ⟨by norm_num, List.chain'_singleton _⟩)

/-- C8: `RecordRelease(n, got)` leaves every size-class counter and
every global accumulator unchanged; its only effect is appending one
release-coded (event code 2) trace entry when tracing is enabled. -/
theorem record_release_frame (s : PageAllocInfo) (t n got : Nat) :
    (s.RecordRelease t n got).small = s.small ∧
    (s.RecordRelease t n got).large = s.large ∧
    (s.RecordRelease t n got).total_small = s.total_small ∧
    (s.RecordRelease t n got).total_slack = s.total_slack ∧
    (s.RecordRelease t n got).largest_seen = s.largest_seen ∧
    (s.log_on = false → (s.RecordRelease t n got).trace = s.trace) ∧
    (s.log_on = true → ∃ e, (s.RecordRelease t n got).trace = s.trace ++ [e] ∧
      e.whenwhat % 2 ^ 8 = 2) := by
  unfold PageAllocInfo.RecordRelease PageAllocInfo.LogRelease
  cases hlog : s.log_on
  · rw [if_neg (by simp [hlog])]
    exact ⟨rfl, rfl, rfl, rfl, rfl, fun _ => rfl, fun hcon => by simp [hlog] at hcon⟩
  · rw [if_pos (by simp [hlog])]
    refine ⟨rfl, rfl, rfl, rfl, rfl, fun hcon => by simp [hlog] at hcon, fun _ => ?_⟩
    unfold PageAllocInfo.Write
    refine ⟨_, rfl, ?_⟩
    have h2 : (2 : Nat) % 2 ^ 8 = 2 := by norm_num
    rw [h2]
    exact whenwhat_low _ 2 (by norm_num)

/-- C8 witness: with tracing off the trace is untouched, and with
tracing on the small-page accumulator is untouched. -/
theorem record_release_frame_witness :
    ((PageAllocInfo.init false).RecordRelease 0 5 4).trace = (PageAllocInfo.init false).trace ∧
    ((PageAllocInfo.init true).RecordRelease 0 5 4).total_small =
      (PageAllocInfo.init true).total_small :=
  ⟨(record_release_frame (PageAllocInfo.init false) 0 5 4).2.2.2.2.2.1 rfl,
   (record_release_frame (PageAllocInfo.init true) 0 5 4).2.2.1⟩

/-- The `Write` path never touches the small-allocation accumulator. -/
theorem Write_total_small (s : PageAllocInfo) (a b c d : Nat) :
    (s.Write a b c d).total_small = s.total_small := rfl

/-- The `Write` path never touches the slack accumulator. -/
theorem Write_total_slack (s : PageAllocInfo) (a b c d : Nat) :
    (s.Write a b c d).total_slack = s.total_slack := rfl

/-- The `Write` path never touches the small counter array. -/
theorem Write_small (s : PageAllocInfo) (a b c d : Nat) :
    (s.Write a b c d).small = s.small := rfl

/-- A small `RecordAlloc` adds `n` to `total_small_`. -/
theorem RecordAlloc_total_small_le (s : PageAllocInfo) (t p n : Nat) (hn : n ≤ kMaxPages) :
    (s.RecordAlloc t p n).total_small = s.total_small + n := by
  unfold PageAllocInfo.RecordAlloc PageAllocInfo.LogAlloc
  dsimp only
  rw [if_pos hn]
  dsimp only
  rw [apply_ite PageAllocInfo.total_small, Write_total_small, ite_self]

/-- A small `RecordAlloc` bumps the class-`n` counters and nothing
else in the small array. -/
theorem RecordAlloc_small_le (s : PageAllocInfo) (t p n : Nat) (hn : n ≤ kMaxPages) :
    (s.RecordAlloc t p n).small =
      Function.update s.small (n - 1) ((s.small (n - 1)).Alloc n) := by
  unfold PageAllocInfo.RecordAlloc PageAllocInfo.LogAlloc
  dsimp only
  rw [if_pos hn]
  dsimp only
  rw [apply_ite PageAllocInfo.small, Write_small, ite_self]

/-- A small `RecordAlloc` leaves the slack accumulator unchanged. -/
theorem RecordAlloc_total_slack_le (s : PageAllocInfo) (t p n : Nat) (hn : n ≤ kMaxPages) :
    (s.RecordAlloc t p n).total_slack = s.total_slack := by
  unfold PageAllocInfo.RecordAlloc PageAllocInfo.LogAlloc
  dsimp only
  rw [if_pos hn]
  dsimp only
  rw [apply_ite PageAllocInfo.total_slack, Write_total_slack, ite_self]

/-- A large `RecordAlloc` leaves `total_small_` unchanged. -/
theorem RecordAlloc_total_small_gt (s : PageAllocInfo) (t p n : Nat) (hn : ¬ n ≤ kMaxPages) :
    (s.RecordAlloc t p n).total_small = s.total_small := by
  unfold PageAllocInfo.RecordAlloc PageAllocInfo.LogAlloc
  dsimp only
  rw [if_neg hn]
  dsimp only
  rw [apply_ite PageAllocInfo.total_small, Write_total_small, ite_self]

/-- A large `RecordAlloc` leaves the small counter array unchanged. -/
theorem RecordAlloc_small_gt (s : PageAllocInfo) (t p n : Nat) (hn : ¬ n ≤ kMaxPages) :
    (s.RecordAlloc t p n).small = s.small := by
  unfold PageAllocInfo.RecordAlloc PageAllocInfo.LogAlloc
  dsimp only
  rw [if_neg hn]
  dsimp only
  rw [apply_ite PageAllocInfo.small, Write_small, ite_self]

/-- A large `RecordAlloc` adds the huge-page rounding slack to
`total_slack_`. -/
theorem RecordAlloc_total_slack_gt (s : PageAllocInfo) (t p n : Nat) (hn : ¬ n ≤ kMaxPages) :
    (s.RecordAlloc t p n).total_slack =
      s.total_slack + ((RoundUp n kPagesPerHugePage - n : Nat) : Int) := by
  unfold PageAllocInfo.RecordAlloc PageAllocInfo.LogAlloc
  dsimp only
  rw [if_neg hn]
  dsimp only
  rw [apply_ite PageAllocInfo.total_slack, Write_total_slack, ite_self]

/-- A small `RecordFree` subtracts `n` from `total_small_`. -/
theorem RecordFree_total_small_le (s : PageAllocInfo) (t p n : Nat) (hn : n ≤ kMaxPages) :
    (s.RecordFree t p n).total_small = s.total_small - n := by
  unfold PageAllocInfo.RecordFree PageAllocInfo.LogFree
  dsimp only
  rw [if_pos hn]
  dsimp only
  rw [apply_ite PageAllocInfo.total_small, Write_total_small, ite_self]

/-- A small `RecordFree` bumps the class-`n` free counters and nothing
else in the small array. -/
theorem RecordFree_small_le (s : PageAllocInfo) (t p n : Nat) (hn : n ≤ kMaxPages) :
    (s.RecordFree t p n).small =
      Function.update s.small (n - 1) ((s.small (n - 1)).Free n) := by
  unfold PageAllocInfo.RecordFree PageAllocInfo.LogFree
  dsimp only
  rw [if_pos hn]
  dsimp only
  rw [apply_ite PageAllocInfo.small, Write_small, ite_self]

/-- A small `RecordFree` leaves the slack accumulator unchanged. -/
theorem RecordFree_total_slack_le (s : PageAllocInfo) (t p n : Nat) (hn : n ≤ kMaxPages) :
    (s.RecordFree t p n).total_slack = s.total_slack := by
  unfold PageAllocInfo.RecordFree PageAllocInfo.LogFree
  dsimp only
  rw [if_pos hn]
  dsimp only
  rw [apply_ite PageAllocInfo.total_slack, Write_total_slack, ite_self]

/-- A large `RecordFree` leaves `total_small_` unchanged. -/
theorem RecordFree_total_small_gt (s : PageAllocInfo) (t p n : Nat) (hn : ¬ n ≤ kMaxPages) :
    (s.RecordFree t p n).total_small = s.total_small := by
  unfold PageAllocInfo.RecordFree PageAllocInfo.LogFree
  dsimp only
  rw [if_neg hn]
  dsimp only
  rw [apply_ite PageAllocInfo.total_small, Write_total_small, ite_self]

/-- A large `RecordFree` leaves the small counter array unchanged. -/
theorem RecordFree_small_gt (s : PageAllocInfo) (t p n : Nat) (hn : ¬ n ≤ kMaxPages) :
    (s.RecordFree t p n).small = s.small := by
  unfold PageAllocInfo.RecordFree PageAllocInfo.LogFree
  dsimp only
  rw [if_neg hn]
  dsimp only
  rw [apply_ite PageAllocInfo.small, Write_small, ite_self]

/-- A large `RecordFree` subtracts the huge-page rounding slack from
`total_slack_`. -/
theorem RecordFree_total_slack_gt (s : PageAllocInfo) (t p n : Nat) (hn : ¬ n ≤ kMaxPages) :
    (s.RecordFree t p n).total_slack =
      s.total_slack - ((RoundUp n kPagesPerHugePage - n : Nat) : Int) := by
  unfold PageAllocInfo.RecordFree PageAllocInfo.LogFree
  dsimp only
  rw [if_neg hn]
  dsimp only
  rw [apply_ite PageAllocInfo.total_slack, Write_total_slack, ite_self]

/-- `RecordRelease` leaves `total_small_` unchanged. -/
theorem RecordRelease_total_small (s : PageAllocInfo) (t n got : Nat) :
    (s.RecordRelease t n got).total_small = s.total_small := by
  unfold PageAllocInfo.RecordRelease PageAllocInfo.LogRelease
  rw [apply_ite PageAllocInfo.total_small, Write_total_small, ite_self]

/-- `RecordRelease` leaves the small counter array unchanged. -/
theorem RecordRelease_small (s : PageAllocInfo) (t n got : Nat) :
    (s.RecordRelease t n got).small = s.small := by
  unfold PageAllocInfo.RecordRelease PageAllocInfo.LogRelease
  rw [apply_ite PageAllocInfo.small, Write_small, ite_self]

/-- C9: for `n` in the large regime, `RecordAlloc` grows `total_slack`
by exactly `roundUp(n, kPagesPerHugePage) - n`, a subsequent
`RecordFree` of the same `n` shrinks it by the same amount, returning
it to its prior value; small `n` changes `total_slack` in neither
direction. -/
theorem slack_roundtrip (s : PageAllocInfo) (t1 t2 p n : Nat)
    (hn : kMaxPages < n) (hbound : n + 255 < 2 ^ 64) :
    (s.RecordAlloc t1 p n).total_slack =
      s.total_slack + ((roundUpSpec n kPagesPerHugePage - n : Nat) : Int) ∧
    ((s.RecordAlloc t1 p n).RecordFree t2 p n).total_slack =
      (s.RecordAlloc t1 p n).total_slack -
        ((roundUpSpec n kPagesPerHugePage - n : Nat) : Int) ∧
    ((s.RecordAlloc t1 p n).RecordFree t2 p n).total_slack = s.total_slack ∧
    (∀ m t q, m ≤ kMaxPages →
      (s.RecordAlloc t q m).total_slack = s.total_slack ∧
      (s.RecordFree t q m).total_slack = s.total_slack) := by
  have hn' : ¬ n ≤ kMaxPages := by omega
  have hru : RoundUp n kPagesPerHugePage = roundUpSpec n kPagesPerHugePage :=
    RoundUp_eq_roundUpSpec n hbound
  have ha := RecordAlloc_total_slack_gt s t1 p n hn'
  have hf := RecordFree_total_slack_gt (s.RecordAlloc t1 p n) t2 p n hn'
  rw [hru] at ha hf
  refine ⟨ha, hf, ?_, ?_⟩
  · rw [hf, ha]
    ring
  · intro m t q hm
    exact ⟨RecordAlloc_total_slack_le s t q m hm, RecordFree_total_slack_le s t q m hm⟩

/-- C9 witness: allocating 300 pages (just above the 256-page huge-page
boundary) from a fresh state adds `512 - 300 = 212` pages of slack, and
freeing them restores the accumulator. -/
theorem slack_roundtrip_witness :
    ((PageAllocInfo.init false).RecordAlloc 0 0 300).total_slack =
      (PageAllocInfo.init false).total_slack +
        ((roundUpSpec 300 kPagesPerHugePage - 300 : Nat) : Int) ∧
    (((PageAllocInfo.init false).RecordAlloc 0 0 300).RecordFree 1 0 300).total_slack =
      (PageAllocInfo.init false).total_slack ∧
    roundUpSpec 300 kPagesPerHugePage - 300 = 212 :=
  ⟨(slack_roundtrip (PageAllocInfo.init false) 0 1 0 300 (by decide) (by decide)).1,
   (slack_roundtrip (PageAllocInfo.init false) 0 1 0 300 (by decide) (by decide)).2.2.1,
   by decide⟩

/-- Updating one slot of an integer-valued array shifts its sum by the
change at that slot. -/
theorem sum_int_update (g : Nat → Int) (k : Nat) (x : Int) (hk : k ∈ Finset.range kMaxPages) :
    (Finset.range kMaxPages).sum (fun i => Function.update g k x i) =
      (Finset.range kMaxPages).sum (fun i => g i) + (x - g k) := by
  rw [Finset.sum_update_of_mem hk, Finset.sdiff_singleton_eq_erase]
  have h2 : g k + ∑ y ∈ (Finset.range kMaxPages).erase k, g y =
      ∑ y ∈ Finset.range kMaxPages, g y :=
    Finset.add_sum_erase (Finset.range kMaxPages) g hk
  omega

/-- Recording an allocation of `n` pages into slot `k` raises the
summed live volume by `n`. -/
theorem sum_counts_update_alloc (f : Nat → Counts) (k n : Nat)
    (hk : k ∈ Finset.range kMaxPages) :
    (Finset.range kMaxPages).sum (fun i =>
        ((Function.update f k ((f k).Alloc n) i).alloc_size : Int) -
        (Function.update f k ((f k).Alloc n) i).free_size) =
      (Finset.range kMaxPages).sum
        (fun i => ((f i).alloc_size : Int) - (f i).free_size) + n := by
  have h1 : ∀ i, ((Function.update f k ((f k).Alloc n) i).alloc_size : Int) -
      (Function.update f k ((f k).Alloc n) i).free_size =
      Function.update (fun j => ((f j).alloc_size : Int) - (f j).free_size) k
        ((((f k).Alloc n).alloc_size : Int) - ((f k).Alloc n).free_size) i := by
    intro i
    by_cases h : i = k
    · subst h; rw [Function.update_same, Function.update_same]
    · rw [Function.update_noteq h, Function.update_noteq h]
  have hd : ((((f k).Alloc n).alloc_size : Int) - ((f k).Alloc n).free_size) -
      (((f k).alloc_size : Int) - (f k).free_size) = n := by
    simp only [Counts.Alloc]
    push_cast
    ring
  calc (Finset.range kMaxPages).sum (fun i =>
        ((Function.update f k ((f k).Alloc n) i).alloc_size : Int) -
        (Function.update f k ((f k).Alloc n) i).free_size)
      = (Finset.range kMaxPages).sum (fun i =>
          Function.update (fun j => ((f j).alloc_size : Int) - (f j).free_size) k
            ((((f k).Alloc n).alloc_size : Int) - ((f k).Alloc n).free_size) i) :=
        Finset.sum_congr rfl (fun i _ => h1 i)
    _ = (Finset.range kMaxPages).sum
          (fun i => ((f i).alloc_size : Int) - (f i).free_size) +
          (((((f k).Alloc n).alloc_size : Int) - ((f k).Alloc n).free_size) -
            (((f k).alloc_size : Int) - (f k).free_size)) :=
        sum_int_update (fun j => ((f j).alloc_size : Int) - (f j).free_size) k _ hk
    _ = (Finset.range kMaxPages).sum
          (fun i => ((f i).alloc_size : Int) - (f i).free_size) + n := by rw [hd]

/-- Recording a free of `n` pages into slot `k` lowers the summed live
volume by `n`. -/
theorem sum_counts_update_free (f : Nat → Counts) (k n : Nat)
    (hk : k ∈ Finset.range kMaxPages) :
    (Finset.range kMaxPages).sum (fun i =>
        ((Function.update f k ((f k).Free n) i).alloc_size : Int) -
        (Function.update f k ((f k).Free n) i).free_size) =
      (Finset.range kMaxPages).sum
        (fun i => ((f i).alloc_size : Int) - (f i).free_size) - n := by
  have h1 : ∀ i, ((Function.update f k ((f k).Free n) i).alloc_size : Int) -
      (Function.update f k ((f k).Free n) i).free_size =
      Function.update (fun j => ((f j).alloc_size : Int) - (f j).free_size) k
        ((((f k).Free n).alloc_size : Int) - ((f k).Free n).free_size) i := by
    intro i
    by_cases h : i = k
    · subst h; rw [Function.update_same, Function.update_same]
    · rw [Function.update_noteq h, Function.update_noteq h]
  have hd : ((((f k).Free n).alloc_size : Int) - ((f k).Free n).free_size) -
      (((f k).alloc_size : Int) - (f k).free_size) = -n := by
    simp only [Counts.Free]
    push_cast
    ring
  calc (Finset.range kMaxPages).sum (fun i =>
        ((Function.update f k ((f k).Free n) i).alloc_size : Int) -
        (Function.update f k ((f k).Free n) i).free_size)
      = (Finset.range kMaxPages).sum (fun i =>
          Function.update (fun j => ((f j).alloc_size : Int) - (f j).free_size) k
            ((((f k).Free n).alloc_size : Int) - ((f k).Free n).free_size) i) :=
        Finset.sum_congr rfl (fun i _ => h1 i)
    _ = (Finset.range kMaxPages).sum
          (fun i => ((f i).alloc_size : Int) - (f i).free_size) +
          (((((f k).Free n).alloc_size : Int) - ((f k).Free n).free_size) -
            (((f k).alloc_size : Int) - (f k).free_size)) :=
        sum_int_update (fun j => ((f j).alloc_size : Int) - (f j).free_size) k _ hk
    _ = (Finset.range kMaxPages).sum
          (fun i => ((f i).alloc_size : Int) - (f i).free_size) - n := by rw [hd]; ring

/-- `smallLive` only depends on the small counter array. -/
theorem smallLive_congr (s1 s2 : PageAllocInfo) (h : s1.small = s2.small) :
    smallLive s1 = smallLive s2 := by
  unfold smallLive
  rw [h]

/-- Every operation preserves the equality between `total_small_` and
the per-class live small page volume. -/
theorem invariant_step (s : PageAllocInfo) (op : Op)
    (hI : s.total_small = smallLive s) :
    (s.step op).total_small = smallLive (s.step op) := by
  have hpos : 0 < kMaxPages := by norm_num [kMaxPages]
  cases op with
  | alloc t p n =>
    show (s.RecordAlloc t p n).total_small = smallLive (s.RecordAlloc t p n)
    by_cases hn : n ≤ kMaxPages
    · have hk : n - 1 ∈ Finset.range kMaxPages := Finset.mem_range.mpr (by omega)
      rw [RecordAlloc_total_small_le s t p n hn, hI]
      unfold smallLive
      rw [RecordAlloc_small_le s t p n hn]
      exact (sum_counts_update_alloc s.small (n - 1) n hk).symm
    · rw [RecordAlloc_total_small_gt s t p n hn, hI]
      exact smallLive_congr s (s.RecordAlloc t p n) (RecordAlloc_small_gt s t p n hn).symm
  | free t p n =>
    show (s.RecordFree t p n).total_small = smallLive (s.RecordFree t p n)
    by_cases hn : n ≤ kMaxPages
    · have hk : n - 1 ∈ Finset.range kMaxPages := Finset.mem_range.mpr (by omega)
      rw [RecordFree_total_small_le s t p n hn, hI]
      unfold smallLive
      rw [RecordFree_small_le s t p n hn]
      exact (sum_counts_update_free s.small (n - 1) n hk).symm
    · rw [RecordFree_total_small_gt s t p n hn, hI]
      exact smallLive_congr s (s.RecordFree t p n) (RecordFree_small_gt s t p n hn).symm
  | release t n got =>
    show (s.RecordRelease t n got).total_small = smallLive (s.RecordRelease t n got)
    rw [RecordRelease_total_small s t n got, hI]
    exact smallLive_congr s (s.RecordRelease t n got) (RecordRelease_small s t n got).symm

/-- The invariant propagates along any operation sequence. -/
theorem run_invariant :
    ∀ (ops : List Op) (s : PageAllocInfo),
      s.total_small = smallLive s →
      (s.run ops).total_small = smallLive (s.run ops) := by
  intro ops
  induction ops with
  | nil => intro s h; exact h
  | cons op ops ih => intro s h; exact ih (s.step op) (invariant_step s op h)

/-- A fresh state has zero live small pages. -/
theorem smallLive_init (b : Bool) : smallLive (PageAllocInfo.init b) = 0 := by
  unfold smallLive PageAllocInfo.init Counts.zero
  simp

/-- C10: `PageAllocInfo` maintains the implicit small-allocation page
counter `total_small_`: small `RecordAlloc` adds `n`, small
`RecordFree` subtracts `n`, large operations and `RecordRelease` leave
it unchanged, and after any operation sequence from a fresh state it
equals the sum over the small size classes of
`allocated_pages - freed_pages`. -/
theorem total_small_tracks_small_live :
    (∀ (s : PageAllocInfo) (t p n : Nat), n ≤ kMaxPages →
      (s.RecordAlloc t p n).total_small = s.total_small + n) ∧
    (∀ (s : PageAllocInfo) (t p n : Nat), n ≤ kMaxPages →
      (s.RecordFree t p n).total_small = s.total_small - n) ∧
    (∀ (s : PageAllocInfo) (t p n : Nat), kMaxPages < n →
      (s.RecordAlloc t p n).total_small = s.total_small ∧
      (s.RecordFree t p n).total_small = s.total_small) ∧
    (∀ (s : PageAllocInfo) (t n got : Nat),
      (s.RecordRelease t n got).total_small = s.total_small) ∧
    (∀ (b : Bool) (ops : List Op),
      (PageAllocInfo.run (PageAllocInfo.init b) ops).total_small =
        smallLive (PageAllocInfo.run (PageAllocInfo.init b) ops)) := by
  refine ⟨?_, ?_, ?_, ?_, ?_⟩
  · intro s t p n hn; exact RecordAlloc_total_small_le s t p n hn
  · intro s t p n hn; exact RecordFree_total_small_le s t p n hn
  · intro s t p n hn
    exact ⟨RecordAlloc_total_small_gt s t p n (by omega),
      RecordFree_total_small_gt s t p n (by omega)⟩
  · intro s t n got
    exact RecordRelease_total_small s t n got
  · intro b ops
    refine run_invariant ops (PageAllocInfo.init b) ?_
    rw [smallLive_init]
    rfl

/-- C10 witness: a small allocation of 3 pages from a fresh state adds
3 to `total_small_`, and a short alloc/free sequence keeps the
accumulator equal to the summed live small volume. -/
theorem total_small_tracks_small_live_witness :
    ((PageAllocInfo.init false).RecordAlloc 0 0 3).total_small =
      (PageAllocInfo.init false).total_small + ((3 : Nat) : Int) ∧
    (PageAllocInfo.run (PageAllocInfo.init false) [Op.alloc 0 0 3, Op.free 1 0 3]).total_small =
      smallLive (PageAllocInfo.run (PageAllocInfo.init false) [Op.alloc 0 0 3, Op.free 1 0 3]) :=
  ⟨total_small_tracks_small_live.1 (PageAllocInfo.init false) 0 0 3 (by decide),
   total_small_tracks_small_live.2.2.2.2 false [Op.alloc 0 0 3, Op.free 1 0 3]⟩

end TcmallocStats
